import Mathlib

/-!
Verification of the barbershop booking core (src/main.py, src/schemas.py).

Shallow embedding conventions:
* Datetimes within a single calendar day are modelled as minutes since
  midnight (`Nat`); `timedelta(minutes = m)` is addition of `m`, and datetime
  comparison is `≤` on minutes.  All arithmetic in the source stays within one
  day, so no overflow/rollover arises.
* Mongo ObjectId identifiers are modelled as `Nat`; a collection is a list of
  `(id, record)` pairs, and the generated `_id` of an insert is a fresh
  counter (`nextId`).  `find_one({"_id": i})` is `findById`, Mongo equality
  filters are boolean predicates over the record fields.
* `database.create_document` / `get_documents` are repository code that is not
  under src/; the insert is modelled from the spec (see `create_document`).
* Fallible endpoints return a result inductive (`CreateResult`,
  `CancelResult`) paired with the post-state; an HTTP error response leaves
  the state unchanged.
-/

namespace Barbershop

/-- Embedding of `time_range(start, end, step_min)` (src/main.py lines 88-92):

    t = start
    while t + timedelta(minutes=step_min) <= end:
        yield t
        t += timedelta(minutes=step_min)

The generator is consumed into a list.  The Python loop terminates exactly
when `step > 0` or the guard fails at once; the `0 < step` conjunct in the
exit condition below makes the Lean function total and agrees with the source
on every input on which the source terminates (see `time_range_fuel` for the
guard-only small-step model and the termination theorem). -/
def time_range (t stop step : Nat) : List Nat :=
  if h : 0 < step ∧ t + step ≤ stop then
    t :: time_range (t + step) stop step
  else
    []
termination_by stop - t
decreasing_by
  have h1 : t < t + step := Nat.lt_add_of_pos_right h.1
  exact Nat.sub_lt_sub_left (Nat.lt_of_lt_of_le h1 h.2) h1

/-- Fuel-indexed model of the same `while` loop, with exactly the source's
guard `t + step ≤ stop` and no totality aid: `none` means the loop has not
exited within `fuel` iterations. -/
def time_range_fuel : Nat → Nat → Nat → Nat → Option (List Nat)
  | 0, _, _, _ => none
  | fuel + 1, t, stop, step =>
    if t + step ≤ stop then
      (time_range_fuel fuel (t + step) stop step).map (fun l => t :: l)
    else
      some []

/-- Zero-padding to two digits, as produced by `strftime` field formatting. -/
def pad2 (n : Nat) : String :=
  if n < 10 then "0" ++ toString n else toString n

/-- `t.strftime("%H:%M")` for a datetime at `m` minutes since midnight
(hour `m / 60`, minute `m % 60`, both zero-padded to width 2; within one day
the hour is at most 23, so two digits always suffice). -/
def formatHM (m : Nat) : String :=
  pad2 (m / 60) ++ ":" ++ pad2 (m % 60)

/-- Barber record (schemas.Barber).  The source stores `start_time` and
`end_time` as "HH:MM" strings and `availability` parses them with
`map(int, s.split(":"))`; they are modelled as the parsed (hour, minute)
pairs.  Plumbing fields not used by any specified operation (specialties,
phone, photo_url, working_days) are omitted. -/
structure BarberRec where
  name : String
  start_time : Nat × Nat
  end_time : Nat × Nat
  slot_minutes : Nat
deriving DecidableEq, Repr

/-- Service record (schemas.Service); `price` is only stored, never computed
with, so its numeric type is irrelevant to the claims. -/
structure ServiceRec where
  title : String
  duration_minutes : Nat
  price : Nat
deriving DecidableEq, Repr

/-- Appointment document as stored (schemas.Appointment).  `status` is kept
as a raw string: creation goes through the schema (restricted to
"scheduled"/"cancelled") but cancellation writes the collection directly with
`$set`, so the stored value is what the operations put there. -/
structure AppointmentRec where
  barber_id : Nat
  service_id : Nat
  customer_name : String
  customer_phone : String
  date : String
  time : String
  status : String
  notes : Option String
deriving DecidableEq, Repr

/-- The document store: one keyed collection per entity plus the fresh-id
counter used for generated identifiers. -/
structure DB where
  barbers : List (Nat × BarberRec)
  services : List (Nat × ServiceRec)
  appointments : List (Nat × AppointmentRec)
  nextId : Nat
deriving Repr

/-- `collection.find_one({"_id": i})`: first (hence, with unique ids, the)
record keyed `i`. -/
def findById {α : Type} (l : List (Nat × α)) (i : Nat) : Option α :=
  (l.find? (fun p => p.1 == i)).map (fun p => p.2)

/-- The `taken_times` query of `availability` (src/main.py line 114-115):
times of appointments matching barber, date and status "scheduled".
(The source collects them into a set; only membership is ever used.) -/
def scheduledTimes (s : DB) (bid : Nat) (date : String) : List String :=
  ((s.appointments.filter (fun p =>
      p.2.barber_id == bid && p.2.date == date &&
      p.2.status == "scheduled")).map (fun p => p.2.time))

/-- `availability(barber_id, date)` (src/main.py lines 95-123): `none` is the
404 "Barber not found" response, otherwise the generated slots of the
barber's working window, formatted "%H:%M", with the taken times removed. -/
def availability (s : DB) (bid : Nat) (date : String) : Option (List String) :=
  match findById s.barbers bid with
  | none => none
  | some b =>
    let start_dt := b.start_time.1 * 60 + b.start_time.2
    let end_dt := b.end_time.1 * 60 + b.end_time.2
    let taken := scheduledTimes s bid date
    some (((time_range start_dt end_dt b.slot_minutes).map formatHM).filter
      (fun st => !taken.contains st))

/-- Body of `POST /appointments` (class CreateAppointment). -/
structure CreatePayload where
  barber_id : Nat
  service_id : Nat
  customer_name : String
  customer_phone : String
  date : String
  time : String
  notes : Option String
deriving DecidableEq, Repr

/-- Outcome of `create_appointment`: 404, 409, or the success payload's new
id. -/
inductive CreateResult where
  | notFound
  | conflict
  | created (id : Nat)
deriving DecidableEq, Repr

/-- The "Ensure slot free" query (src/main.py lines 147-152): does any stored
appointment match barber, date, time with status "scheduled"? -/
def slotTaken (s : DB) (bid : Nat) (date time : String) : Bool :=
  s.appointments.any (fun p =>
    p.2.barber_id == bid && p.2.date == date &&
    p.2.time == time && p.2.status == "scheduled")

/-- Modelled from the spec: `database.create_document` (repository file
database.py, not under src/) — §6 "Insert(collection, record) → generated
identifier".  The record is appended under a fresh generated id. -/
def create_document {α : Type} (l : List (Nat × α)) (nextId : Nat) (rec : α) :
    List (Nat × α) × Nat :=
  (l ++ [(nextId, rec)], nextId)

/-- `create_appointment(payload)` (src/main.py lines 137-158): 404 when the
barber or the service id has no record, 409 when the slot is taken by a
scheduled appointment, otherwise insert with status "scheduled". -/
def create_appointment (s : DB) (p : CreatePayload) : CreateResult × DB :=
  if (findById s.barbers p.barber_id).isNone then
    (.notFound, s)
  else if (findById s.services p.service_id).isNone then
    (.notFound, s)
  else if slotTaken s p.barber_id p.date p.time then
    (.conflict, s)
  else
    let appo : AppointmentRec :=
      { barber_id := p.barber_id, service_id := p.service_id,
        customer_name := p.customer_name, customer_phone := p.customer_phone,
        date := p.date, time := p.time, status := "scheduled",
        notes := p.notes }
    let ins := create_document s.appointments s.nextId appo
    (.created ins.2, { s with appointments := ins.1, nextId := s.nextId + 1 })

/-- Outcome of `cancel_appointment`: 404 or success. -/
inductive CancelResult where
  | notFound
  | ok
deriving DecidableEq, Repr

/-- `update_one({"_id": id}, {"$set": {"status": "cancelled", ...}})`:
updates the first record keyed `id` (Mongo `update_one` touches at most one
document); `none` is matched_count = 0.  The source also refreshes an
`updated_at` wall-clock bookkeeping field that is not part of the schema and
is not modelled. -/
def setCancelledFirst : List (Nat × AppointmentRec) → Nat →
    Option (List (Nat × AppointmentRec))
  | [], _ => none
  | p :: rest, i =>
    if p.1 == i then
      some ((p.1, { p.2 with status := "cancelled" }) :: rest)
    else
      (setCancelledFirst rest i).map (fun l => p :: l)

/-- `cancel_appointment(appointment_id)` (src/main.py lines 172-177): 404
when no appointment matches the id, otherwise set its status to
"cancelled". -/
def cancel_appointment (s : DB) (aid : Nat) : CancelResult × DB :=
  match setCancelledFirst s.appointments aid with
  | none => (.notFound, s)
  | some l => (.ok, { s with appointments := l })

/-- The empty store at startup. -/
def initDB : DB :=
  { barbers := [], services := [], appointments := [], nextId := 0 }

/-- Inserting a barber (seeding, §6 Insert). -/
def add_barber (s : DB) (b : BarberRec) : DB :=
  { s with barbers := (create_document s.barbers s.nextId b).1,
           nextId := s.nextId + 1 }

/-- Inserting a service (seeding, §6 Insert). -/
def add_service (s : DB) (v : ServiceRec) : DB :=
  { s with services := (create_document s.services s.nextId v).1,
           nextId := s.nextId + 1 }

/-- States reachable from startup through the API's mutating operations
(seeding of barbers/services, booking, cancellation; the remaining endpoints
are read-only). -/
inductive Reachable : DB → Prop where
  | init : Reachable initDB
  | seedBarber {s : DB} (b : BarberRec) : Reachable s → Reachable (add_barber s b)
  | seedService {s : DB} (v : ServiceRec) : Reachable s → Reachable (add_service s v)
  | book {s : DB} (p : CreatePayload) : Reachable s → Reachable (create_appointment s p).2
  | cancel {s : DB} (aid : Nat) : Reachable s → Reachable (cancel_appointment s aid).2

/-- State invariant maintained by every operation: generated ids are below
the counter, ids are unique, statuses are in the two-element set, and at most
one scheduled appointment occupies a (barber, date, time) slot. -/
def Inv (s : DB) : Prop :=
  (∀ q ∈ s.appointments, q.1 < s.nextId) ∧
  (s.appointments.map Prod.fst).Nodup ∧
  (∀ q ∈ s.appointments, q.2.status = "scheduled" ∨ q.2.status = "cancelled") ∧
  (∀ q ∈ s.appointments, ∀ q' ∈ s.appointments,
    q.2.status = "scheduled" → q'.2.status = "scheduled" →
    q.2.barber_id = q'.2.barber_id → q.2.date = q'.2.date →
    q.2.time = q'.2.time → q.1 = q'.1)

/-- Concrete barber for witnesses: 09:00-10:00, 30-minute slots. -/
def exBarber : BarberRec :=
  { name := "A", start_time := (9, 0), end_time := (10, 0), slot_minutes := 30 }

/-- Concrete service for witnesses. -/
def exService : ServiceRec :=
  { title := "cut", duration_minutes := 30, price := 100 }

/-- Concrete scheduled appointment at 09:00 for barber 0. -/
def exAppt : AppointmentRec :=
  { barber_id := 0, service_id := 1, customer_name := "C",
    customer_phone := "091", date := "2024-01-01", time := "09:00",
    status := "scheduled", notes := none }

/-- The same appointment after cancellation. -/
def exApptCancelled : AppointmentRec := { exAppt with status := "cancelled" }

/-- Concrete store: one barber (id 0), one service (id 1), one scheduled
appointment (id 2). -/
def exDB : DB :=
  { barbers := [(0, exBarber)], services := [(1, exService)],
    appointments := [(2, exAppt)], nextId := 3 }

/-- `exDB` with the appointment cancelled. -/
def exDBc : DB := { exDB with appointments := [(2, exApptCancelled)] }

/-- Booking request for barber 0 / service 1 at the 09:00 slot. -/
def exPayload : CreatePayload :=
  { barber_id := 0, service_id := 1, customer_name := "D",
    customer_phone := "092", date := "2024-01-01", time := "09:00",
    notes := none }

/-- A reachable store: seed a barber and a service, then book 09:00. -/
def exDB3 : DB :=
  (create_appointment (add_service (add_barber initDB exBarber) exService)
    exPayload).2

/-- The appointment record the booking inserted into `exDB3` (id 2). -/
def exBookedRec : AppointmentRec :=
  { barber_id := 0, service_id := 1, customer_name := "D",
    customer_phone := "092", date := "2024-01-01", time := "09:00",
    status := "scheduled", notes := none }

/-- Closed form of the slot generator: for a positive step it emits
`start + i * step` for `i < (stop - start) / step`. -/
theorem time_range_eq_map (t stop step : Nat) (hs : 0 < step) :
    time_range t stop step =
      (List.range ((stop - t) / step)).map (fun i => t + i * step) := by
  induction t, stop, step using time_range.induct with
  | case1 t stop step h ih =>
    rw [time_range, dif_pos h]
    have hle : step ≤ stop - t := Nat.le_sub_of_add_le (by omega)
    have hdiv : (stop - t) / step = (stop - (t + step)) / step + 1 := by
      rw [Nat.sub_add_eq] at *
      rw [Nat.div_eq_sub_div hs hle]
    rw [ih hs, hdiv, List.range_succ_eq_map, List.map_cons, List.map_map]
    have hfun : ((fun i => t + i * step) ∘ Nat.succ) =
        (fun i => t + step + i * step) := by
      funext i
      simp only [Function.comp_apply, Nat.succ_mul, Nat.succ_eq_add_one]
      ring
    rw [hfun]
    simp
  | case2 t stop step h =>
    rw [time_range, dif_neg h]
    rcases Nat.lt_or_ge (stop - t) step with hlt | hge
    · rw [Nat.div_eq_of_lt hlt]
      simp
    · exact absurd ⟨hs, by omega⟩ h

/-- C1: for end − start ≥ slot > 0, the slot generator produces exactly
⌊(end − start) / slot⌋ entries, strictly increasing, each at least `start`
and each fitting fully before `end` (entry + slot ≤ end). -/
theorem time_range_spec (start stop step : Nat) (hstep : 0 < step)
    (hge : start + step ≤ stop) :
    (time_range start stop step).length = (stop - start) / step ∧
    (time_range start stop step).Pairwise (· < ·) ∧
    (∀ t ∈ time_range start stop step, start ≤ t ∧ t + step ≤ stop) := by
  rw [time_range_eq_map start stop step hstep]
  refine ⟨by simp, ?_, ?_⟩
  · refine List.Pairwise.map _ ?_ (List.pairwise_lt_range _)
    intro a b hab
    exact Nat.add_lt_add_left (Nat.mul_lt_mul_of_pos_right hab hstep) start
  · intro t ht
    rcases List.mem_map.mp ht with ⟨i, hi, rfl⟩
    refine ⟨Nat.le_add_right _ _, ?_⟩
    have hiq : i + 1 ≤ (stop - start) / step := List.mem_range.mp hi
    have h1 : (i + 1) * step ≤ ((stop - start) / step) * step :=
      Nat.mul_le_mul hiq (Nat.le_refl step)
    have h2 : ((stop - start) / step) * step ≤ stop - start :=
      Nat.div_mul_le_self _ _
    have h3 : (i + 1) * step = i * step + step := by ring
    omega

/-- C1 witness: concrete run at start 09:00 = 540, end 10:00 = 600,
slot 30 minutes. -/
theorem time_range_spec_witness :
    0 < 30 ∧ 540 + 30 ≤ 600 ∧
    ((time_range 540 600 30).length = (600 - 540) / 30 ∧
     (time_range 540 600 30).Pairwise (· < ·) ∧
     (∀ t ∈ time_range 540 600 30, 540 ≤ t ∧ t + 30 ≤ 600)) :=
  ⟨by decide, by decide, time_range_spec 540 600 30 (by decide) (by decide)⟩

/-- C5: when end − start < slot (for a positive slot), the generator is
empty.  `stop - start` is ℕ-subtraction; together with `0 < step` the
hypothesis is equivalent to the integer reading of end − start < slot. -/
theorem time_range_empty (start stop step : Nat) (hstep : 0 < step)
    (hlt : stop - start < step) :
    time_range start stop step = [] := by
  rw [time_range, dif_neg]
  rintro ⟨-, h2⟩
  omega

/-- C5 witness: a 30-minute slot does not fit in the 20-minute window
[540, 560]. -/
theorem time_range_empty_witness :
    0 < 30 ∧ 560 - 540 < 30 ∧ time_range 540 560 30 = [] :=
  ⟨by decide, by decide, time_range_empty 540 560 30 (by decide) (by decide)⟩

/-- The guard-only loop exits within any fuel beyond ⌊(stop − t) / step⌋,
producing exactly `time_range`. -/
theorem time_range_fuel_eq (t stop step : Nat) (hs : 0 < step) :
    ∀ n, (stop - t) / step < n →
      time_range_fuel n t stop step = some (time_range t stop step) := by
  induction t, stop, step using time_range.induct with
  | case1 t stop step h ih =>
    intro n hn
    match n, hn with
    | n + 1, hn =>
      have hle : step ≤ stop - t := Nat.le_sub_of_add_le (by omega)
      have hdiv : (stop - t) / step = (stop - (t + step)) / step + 1 := by
        rw [Nat.sub_add_eq] at *
        rw [Nat.div_eq_sub_div hs hle]
      rw [time_range_fuel, if_pos h.2, ih hs n (by omega)]
      have hunf : time_range t stop step = t :: time_range (t + step) stop step := by
        rw [time_range, dif_pos h]
      rw [hunf]
      rfl
  | case2 t stop step h =>
    intro n hn
    match n, hn with
    | n + 1, _ =>
      have hguard : ¬ t + step ≤ stop := fun hc => h ⟨hs, hc⟩
      rw [time_range_fuel, if_neg hguard, time_range, dif_neg h]

/-- C9: for a positive slot duration the source's `while` loop terminates:
some finite fuel suffices for the guard-only loop model to exit, and the
finite list it returns is the slot generator's output. -/
theorem time_range_terminates (start stop step : Nat) (hstep : 0 < step) :
    ∃ n, time_range_fuel n start stop step =
      some (time_range start stop step) :=
  ⟨(stop - start) / step + 1,
    time_range_fuel_eq start stop step hstep _ (Nat.lt_succ_self _)⟩

/-- C9 witness: termination at start 540, end 600, slot 30. -/
theorem time_range_terminates_witness :
    0 < 30 ∧
    ∃ n, time_range_fuel n 540 600 30 = some (time_range 540 600 30) :=
  ⟨by decide, time_range_terminates 540 600 30 (by decide)⟩

theorem slotTaken_iff (s : DB) (bid : Nat) (date time : String) :
    slotTaken s bid date time = true ↔
      ∃ q ∈ s.appointments, q.2.barber_id = bid ∧ q.2.date = date ∧
        q.2.time = time ∧ q.2.status = "scheduled" := by
  simp [slotTaken, List.any_eq_true, and_assoc]

theorem mem_scheduledTimes (s : DB) (bid : Nat) (date st : String) :
    st ∈ scheduledTimes s bid date ↔
      ∃ q ∈ s.appointments, q.2.barber_id = bid ∧ q.2.date = date ∧
        q.2.status = "scheduled" ∧ q.2.time = st := by
  simp [scheduledTimes, List.mem_filter, and_assoc]
theorem keys_nodup_inj {i : Nat} {a a' : AppointmentRec} :
    ∀ l : List (Nat × AppointmentRec), (l.map Prod.fst).Nodup →
      (i, a) ∈ l → (i, a') ∈ l → a = a' := by
  intro l
  induction l with
  | nil =>
    intro _ h
    cases h
  | cons p rest ih =>
    intro hnd h h'
    obtain ⟨pid, pa⟩ := p
    rw [List.map_cons, List.nodup_cons] at hnd
    rcases List.mem_cons.mp h with he | hr
    · rcases List.mem_cons.mp h' with he' | hr'
      · rw [Prod.mk.injEq] at he he'
        rw [he.2, he'.2]
      · exfalso
        apply hnd.1
        rw [Prod.mk.injEq] at he
        have hm : i ∈ List.map Prod.fst rest :=
          List.mem_map.mpr ⟨(i, a'), hr', rfl⟩
        rw [he.1] at hm
        exact hm
    · rcases List.mem_cons.mp h' with he' | hr'
      · exfalso
        apply hnd.1
        rw [Prod.mk.injEq] at he'
        have hm : i ∈ List.map Prod.fst rest :=
          List.mem_map.mpr ⟨(i, a), hr, rfl⟩
        rw [he'.1] at hm
        exact hm
      · exact ih hnd.2 hr hr'

theorem setCancelledFirst_none_iff (i : Nat) :
    ∀ l : List (Nat × AppointmentRec),
      setCancelledFirst l i = none ↔ ∀ a, (i, a) ∉ l := by
  intro l
  induction l with
  | nil => simp [setCancelledFirst]
  | cons p rest ih =>
    obtain ⟨pid, pa⟩ := p
    by_cases hpi : pid = i
    · subst hpi
      constructor
      · intro hcon
        simp [setCancelledFirst] at hcon
      · intro h
        exact absurd (List.mem_cons_self _ _) (h pa)
    · simp only [setCancelledFirst, beq_iff_eq, if_neg hpi,
        Option.map_eq_none']
      rw [ih]
      constructor
      · intro h a hmem
        rcases List.mem_cons.mp hmem with he | hr
        · rw [Prod.mk.injEq] at he
          exact hpi he.1.symm
        · exact h a hr
      · intro h a hr
        exact h a (List.mem_cons_of_mem _ hr)

theorem setCancelledFirst_mem (i : Nat) :
    ∀ (l l' : List (Nat × AppointmentRec)),
      setCancelledFirst l i = some l' →
      ∀ q ∈ l', q ∈ l ∨ (q.1 = i ∧ q.2.status = "cancelled") := by
  intro l
  induction l with
  | nil =>
    intro l' h
    simp [setCancelledFirst] at h
  | cons p rest ih =>
    intro l' h
    obtain ⟨pid, pa⟩ := p
    by_cases hpi : pid = i
    · subst hpi
      simp only [setCancelledFirst, beq_self_eq_true, if_true,
        Option.some.injEq] at h
      subst h
      intro q hq
      rcases List.mem_cons.mp hq with he | hr
      · right
        rw [he]
        exact ⟨rfl, rfl⟩
      · exact Or.inl (List.mem_cons_of_mem _ hr)
    · simp only [setCancelledFirst, beq_iff_eq, if_neg hpi] at h
      rcases Option.map_eq_some'.mp h with ⟨l'', h1, h2⟩
      subst h2
      intro q hq
      rcases List.mem_cons.mp hq with he | hr
      · exact Or.inl (he ▸ List.mem_cons_self _ _)
      · rcases ih l'' h1 q hr with hin | hc
        · exact Or.inl (List.mem_cons_of_mem _ hin)
        · exact Or.inr hc

theorem setCancelledFirst_keys (i : Nat) :
    ∀ (l l' : List (Nat × AppointmentRec)),
      setCancelledFirst l i = some l' →
      l'.map Prod.fst = l.map Prod.fst := by
  intro l
  induction l with
  | nil =>
    intro l' h
    simp [setCancelledFirst] at h
  | cons p rest ih =>
    intro l' h
    obtain ⟨pid, pa⟩ := p
    by_cases hpi : pid = i
    · subst hpi
      simp only [setCancelledFirst, beq_self_eq_true, if_true,
        Option.some.injEq] at h
      subst h
      rfl
    · simp only [setCancelledFirst, beq_iff_eq, if_neg hpi] at h
      rcases Option.map_eq_some'.mp h with ⟨l'', h1, h2⟩
      subst h2
      simp only [List.map_cons]
      rw [ih l'' h1]

theorem setCancelledFirst_key_cancelled (i : Nat) :
    ∀ (l l' : List (Nat × AppointmentRec)), (l.map Prod.fst).Nodup →
      setCancelledFirst l i = some l' →
      ∀ q ∈ l', q.1 = i → q.2.status = "cancelled" := by
  intro l
  induction l with
  | nil =>
    intro l' _ h
    simp [setCancelledFirst] at h
  | cons p rest ih =>
    intro l' hnd h
    obtain ⟨pid, pa⟩ := p
    rw [List.map_cons, List.nodup_cons] at hnd
    by_cases hpi : pid = i
    · subst hpi
      simp only [setCancelledFirst, beq_self_eq_true, if_true,
        Option.some.injEq] at h
      subst h
      intro q hq hqi
      rcases List.mem_cons.mp hq with he | hr
      · rw [he]
      · exfalso
        apply hnd.1
        have hm : q.1 ∈ List.map Prod.fst rest :=
          List.mem_map.mpr ⟨q, hr, rfl⟩
        rw [hqi] at hm
        exact hm
    · simp only [setCancelledFirst, beq_iff_eq, if_neg hpi] at h
      rcases Option.map_eq_some'.mp h with ⟨l'', h1, h2⟩
      subst h2
      intro q hq hqi
      rcases List.mem_cons.mp hq with he | hr
      · exfalso
        apply hpi
        rw [← hqi, he]
      · exact ih l'' hnd.2 h1 q hr hqi

theorem setCancelledFirst_exists_cancelled (i : Nat) :
    ∀ (l l' : List (Nat × AppointmentRec)),
      setCancelledFirst l i = some l' →
      ∃ a, (i, a) ∈ l' ∧ a.status = "cancelled" := by
  intro l
  induction l with
  | nil =>
    intro l' h
    simp [setCancelledFirst] at h
  | cons p rest ih =>
    intro l' h
    obtain ⟨pid, pa⟩ := p
    by_cases hpi : pid = i
    · subst hpi
      simp only [setCancelledFirst, beq_self_eq_true, if_true,
        Option.some.injEq] at h
      subst h
      exact ⟨{ pa with status := "cancelled" }, List.mem_cons_self _ _, rfl⟩
    · simp only [setCancelledFirst, beq_iff_eq, if_neg hpi] at h
      rcases Option.map_eq_some'.mp h with ⟨l'', h1, h2⟩
      subst h2
      rcases ih l'' h1 with ⟨a, ha1, ha2⟩
      exact ⟨a, List.mem_cons_of_mem _ ha1, ha2⟩

theorem setCancelledFirst_already (i : Nat) (a : AppointmentRec) :
    ∀ l : List (Nat × AppointmentRec), (l.map Prod.fst).Nodup →
      (i, a) ∈ l → a.status = "cancelled" →
      setCancelledFirst l i = some l := by
  intro l
  induction l with
  | nil =>
    intro _ hmem
    cases hmem
  | cons p rest ih =>
    intro hnd hmem hc
    obtain ⟨pid, pa⟩ := p
    rw [List.map_cons, List.nodup_cons] at hnd
    rcases List.mem_cons.mp hmem with he | hr
    · rw [Prod.mk.injEq] at he
      obtain ⟨he1, he2⟩ := he
      subst he1
      have hpa : ({ pa with status := "cancelled" } : AppointmentRec) = pa := by
        rw [he2] at hc
        obtain ⟨b1, b2, b3, b4, b5, b6, b7, b8⟩ := pa
        simp only at hc
        simp [hc]
      simp only [setCancelledFirst, beq_self_eq_true, if_true, hpa]
    · have hpi : pid ≠ i := by
        intro hcon
        apply hnd.1
        have hm : i ∈ List.map Prod.fst rest :=
          List.mem_map.mpr ⟨(i, a), hr, rfl⟩
        rw [hcon]
        exact hm
      simp only [setCancelledFirst, beq_iff_eq, if_neg hpi]
      rw [ih hnd.2 hr hc]
      rfl

/-- Two-digit zero-padded rendering really is two characters for every value
that can occur in an "%H" or "%M" field. -/
theorem pad2_length_two : ∀ n < 60, (pad2 n).length = 2 := by decide

/-- "%H:%M" output is a five-character zero-padded string for any minute of
the day. -/
theorem formatHM_length (t : Nat) (h : t < 1440) : (formatHM t).length = 5 := by
  have h1 : (pad2 (t / 60)).length = 2 := pad2_length_two _ (by omega)
  have h2 : (pad2 (t % 60)).length = 2 := pad2_length_two _ (by omega)
  have h3 : (":" : String).length = 1 := rfl
  simp [formatHM, String.length_append, h1, h2, h3]

/-- Every emitted slot fits before the end of the window. -/
theorem time_range_mem_le (t stop step : Nat) :
    ∀ t' ∈ time_range t stop step, t' + step ≤ stop := by
  induction t, stop, step using time_range.induct with
  | case1 t stop step hc ih =>
    intro t' h
    rw [time_range, dif_pos hc] at h
    rcases List.mem_cons.mp h with rfl | h2
    · exact hc.2
    · exact ih t' h2
  | case2 t stop step hc =>
    intro t' h
    rw [time_range, dif_neg hc] at h
    cases h

theorem inv_initDB : Inv initDB := by
  refine ⟨?_, ?_, ?_, ?_⟩ <;> simp [initDB]

/-- Appending a freshly keyed scheduled appointment whose slot was free
preserves the invariant. -/
theorem inv_append_fresh (s : DB) (a : AppointmentRec) (h : Inv s)
    (hsched : a.status = "scheduled")
    (hfree : slotTaken s a.barber_id a.date a.time = false) :
    Inv { s with
      appointments := s.appointments ++ [(s.nextId, a)],
      nextId := s.nextId + 1 } := by
  obtain ⟨h1, h2, h3, h4⟩ := h
  have hfree' : ∀ q ∈ s.appointments, q.2.status = "scheduled" →
      q.2.barber_id = a.barber_id → q.2.date = a.date → q.2.time = a.time →
      False := by
    intro q hq hs1 e1 e2 e3
    have hcon : slotTaken s a.barber_id a.date a.time = true :=
      (slotTaken_iff _ _ _ _).mpr ⟨q, hq, e1, e2, e3, hs1⟩
    rw [hfree] at hcon
    cases hcon
  refine ⟨?_, ?_, ?_, ?_⟩
  · intro q hq
    rcases List.mem_append.mp hq with hin | hnew
    · exact Nat.lt_succ_of_lt (h1 q hin)
    · rw [List.mem_singleton.mp hnew]
      exact Nat.lt_succ_self _
  · show (List.map Prod.fst (s.appointments ++ [(s.nextId, a)])).Nodup
    rw [List.map_append, List.nodup_append]
    refine ⟨h2, List.nodup_singleton _, ?_⟩
    intro x hx hx2
    rcases List.mem_map.mp hx with ⟨q, hq, hqe⟩
    have hlt : q.1 < s.nextId := h1 q hq
    simp only [List.map_cons, List.map_nil, List.mem_singleton] at hx2
    omega
  · intro q hq
    rcases List.mem_append.mp hq with hin | hnew
    · exact h3 q hin
    · rw [List.mem_singleton.mp hnew]
      exact Or.inl hsched
  · intro q hq q' hq' hs1 hs2 e1 e2 e3
    rcases List.mem_append.mp hq with hin | hnew
    · rcases List.mem_append.mp hq' with hin' | hnew'
      · exact h4 q hin q' hin' hs1 hs2 e1 e2 e3
      · exfalso
        rw [List.mem_singleton.mp hnew'] at e1 e2 e3
        exact hfree' q hin hs1 e1 e2 e3
    · rcases List.mem_append.mp hq' with hin' | hnew'
      · exfalso
        rw [List.mem_singleton.mp hnew] at e1 e2 e3
        exact hfree' q' hin' hs2 e1.symm e2.symm e3.symm
      · rw [List.mem_singleton.mp hnew, List.mem_singleton.mp hnew']

theorem create_preserves_inv (s : DB) (p : CreatePayload) (h : Inv s) :
    Inv (create_appointment s p).2 := by
  simp only [create_appointment, create_document]
  split
  · exact h
  · split
    · exact h
    · split
      · exact h
      · rename_i htaken
        have hfalse : slotTaken s p.barber_id p.date p.time = false := by
          cases hb2 : slotTaken s p.barber_id p.date p.time
          · rfl
          · exact absurd hb2 htaken
        refine inv_append_fresh s _ h rfl ?_
        exact hfalse

theorem cancel_preserves_inv (s : DB) (aid : Nat) (h : Inv s) :
    Inv (cancel_appointment s aid).2 := by
  obtain ⟨h1, h2, h3, h4⟩ := h
  simp only [cancel_appointment]
  cases hset : setCancelledFirst s.appointments aid with
  | none => exact ⟨h1, h2, h3, h4⟩
  | some l' =>
    have hkeys := setCancelledFirst_keys aid s.appointments l' hset
    have hmm := setCancelledFirst_mem aid s.appointments l' hset
    refine ⟨?_, ?_, ?_, ?_⟩
    · intro q hq
      have hq1 : q.1 ∈ List.map Prod.fst l' := List.mem_map.mpr ⟨q, hq, rfl⟩
      rw [hkeys] at hq1
      rcases List.mem_map.mp hq1 with ⟨r, hr, hre⟩
      have := h1 r hr
      show q.1 < s.nextId
      omega
    · show (List.map Prod.fst l').Nodup
      rw [hkeys]
      exact h2
    · intro q hq
      rcases hmm q hq with hin | hc
      · exact h3 q hin
      · exact Or.inr hc.2
    · intro q hq q' hq' hs1 hs2 e1 e2 e3
      rcases hmm q hq with hin | hc
      · rcases hmm q' hq' with hin' | hc'
        · exact h4 q hin q' hin' hs1 hs2 e1 e2 e3
        · exact absurd (hs2.symm.trans hc'.2) (by decide)
      · exact absurd (hs1.symm.trans hc.2) (by decide)

/-- Every reachable store satisfies the invariant. -/
theorem reachable_inv {s : DB} (h : Reachable s) : Inv s := by
  induction h with
  | init => exact inv_initDB
  | seedBarber b hr ih =>
    obtain ⟨h1, h2, h3, h4⟩ := ih
    exact ⟨fun q hq => Nat.lt_succ_of_lt (h1 q hq), h2, h3, h4⟩
  | seedService v hr ih =>
    obtain ⟨h1, h2, h3, h4⟩ := ih
    exact ⟨fun q hq => Nat.lt_succ_of_lt (h1 q hq), h2, h3, h4⟩
  | book p hr ih => exact create_preserves_inv _ p ih
  | cancel aid hr ih => exact cancel_preserves_inv _ aid ih

/-- C2: for a stored barber (with a positive slot size and an end time inside
the day, as `datetime.replace` enforces), the availability query returns some
list, and a time string is in it exactly when it is one of the slot
generator's outputs for the barber's working window, formatted "%H:%M", and no
appointment for that barber and date with status "scheduled" has that "time";
cancelled appointments remove nothing, since only status "scheduled" blocks.
All returned entries are zero-padded five-character "HH:MM" strings. -/
theorem availability_spec (s : DB) (bid : Nat) (date : String) (b : BarberRec)
    (hb : findById s.barbers bid = some b)
    (hstep : 0 < b.slot_minutes)
    (hend : b.end_time.1 * 60 + b.end_time.2 ≤ 1440) :
    ∃ l, availability s bid date = some l ∧
      (∀ st, st ∈ l ↔
        (st ∈ (time_range (b.start_time.1 * 60 + b.start_time.2)
            (b.end_time.1 * 60 + b.end_time.2) b.slot_minutes).map formatHM ∧
         ¬ ∃ q ∈ s.appointments, q.2.barber_id = bid ∧ q.2.date = date ∧
              q.2.status = "scheduled" ∧ q.2.time = st)) ∧
      (∀ st ∈ l, st.length = 5) := by
  refine ⟨((time_range (b.start_time.1 * 60 + b.start_time.2)
      (b.end_time.1 * 60 + b.end_time.2) b.slot_minutes).map formatHM).filter
      (fun st => !(scheduledTimes s bid date).contains st), ?_, ?_, ?_⟩
  · simp [availability, hb]
  · intro st
    rw [List.mem_filter]
    have hcont : (!(scheduledTimes s bid date).contains st) = true ↔
        ¬ st ∈ scheduledTimes s bid date := by
      simp [List.contains]
    rw [hcont, mem_scheduledTimes]
  · intro st hst
    rw [List.mem_filter] at hst
    rcases List.mem_map.mp hst.1 with ⟨t, ht, rfl⟩
    have hle := time_range_mem_le _ _ _ t ht
    exact formatHM_length t (by omega)

/-- C2 witness: `exDB`'s barber 0 works 09:00-10:00 with 30-minute slots. -/
theorem availability_spec_witness :
    findById exDB.barbers 0 = some exBarber ∧
    0 < exBarber.slot_minutes ∧
    exBarber.end_time.1 * 60 + exBarber.end_time.2 ≤ 1440 ∧
    (∃ l, availability exDB 0 "2024-01-01" = some l ∧
      (∀ st, st ∈ l ↔
        (st ∈ (time_range (exBarber.start_time.1 * 60 + exBarber.start_time.2)
            (exBarber.end_time.1 * 60 + exBarber.end_time.2)
            exBarber.slot_minutes).map formatHM ∧
         ¬ ∃ q ∈ exDB.appointments, q.2.barber_id = 0 ∧
              q.2.date = "2024-01-01" ∧ q.2.status = "scheduled" ∧
              q.2.time = st)) ∧
      (∀ st ∈ l, st.length = 5)) :=
  ⟨by decide, by decide, by decide,
    availability_spec exDB 0 "2024-01-01" exBarber (by decide) (by decide)
      (by decide)⟩

/-- C3: when the barber and the service exist and some stored appointment for
the requested barber, date and time has status "scheduled", booking returns
the Conflict outcome with the store unchanged, so the number of scheduled
appointments occupying that slot is unchanged (in particular it stays 1 when
it was 1). -/
theorem create_conflict (s : DB) (p : CreatePayload)
    (hb : (findById s.barbers p.barber_id).isSome = true)
    (hsv : (findById s.services p.service_id).isSome = true)
    (hex : ∃ q ∈ s.appointments, q.2.barber_id = p.barber_id ∧
        q.2.date = p.date ∧ q.2.time = p.time ∧ q.2.status = "scheduled") :
    create_appointment s p = (.conflict, s) ∧
    ((create_appointment s p).2.appointments.filter (fun q =>
        q.2.barber_id == p.barber_id && q.2.date == p.date &&
        q.2.time == p.time && q.2.status == "scheduled")).length =
      (s.appointments.filter (fun q =>
        q.2.barber_id == p.barber_id && q.2.date == p.date &&
        q.2.time == p.time && q.2.status == "scheduled")).length := by
  have htaken : slotTaken s p.barber_id p.date p.time = true :=
    (slotTaken_iff s p.barber_id p.date p.time).mpr hex
  have hbn : (findById s.barbers p.barber_id).isNone = false := by
    cases hfb : findById s.barbers p.barber_id
    · rw [hfb] at hb
      cases hb
    · rfl
  have hsn : (findById s.services p.service_id).isNone = false := by
    cases hfs : findById s.services p.service_id
    · rw [hfs] at hsv
      cases hsv
    · rfl
  have hmain : create_appointment s p = (.conflict, s) := by
    simp [create_appointment, hbn, hsn, htaken]
  exact ⟨hmain, by rw [hmain]⟩

/-- C3 witness: rebooking `exDB`'s occupied 09:00 slot. -/
theorem create_conflict_witness :
    (findById exDB.barbers exPayload.barber_id).isSome = true ∧
    (findById exDB.services exPayload.service_id).isSome = true ∧
    (∃ q ∈ exDB.appointments, q.2.barber_id = exPayload.barber_id ∧
        q.2.date = exPayload.date ∧ q.2.time = exPayload.time ∧
        q.2.status = "scheduled") ∧
    (create_appointment exDB exPayload = (.conflict, exDB) ∧
     ((create_appointment exDB exPayload).2.appointments.filter (fun q =>
        q.2.barber_id == exPayload.barber_id && q.2.date == exPayload.date &&
        q.2.time == exPayload.time && q.2.status == "scheduled")).length =
      (exDB.appointments.filter (fun q =>
        q.2.barber_id == exPayload.barber_id && q.2.date == exPayload.date &&
        q.2.time == exPayload.time && q.2.status == "scheduled")).length) :=
  ⟨by decide, by decide, by decide,
    create_conflict exDB exPayload (by decide) (by decide) (by decide)⟩

/-- C4: booking with a barber id or a service id that matches no stored
record returns the NotFound outcome and leaves the store (in particular the
appointment collection) unchanged. -/
theorem create_missing_ref (s : DB) (p : CreatePayload)
    (h : findById s.barbers p.barber_id = none ∨
         findById s.services p.service_id = none) :
    create_appointment s p = (.notFound, s) := by
  rcases h with h | h
  · simp [create_appointment, h]
  · cases hfb : findById s.barbers p.barber_id
    · simp [create_appointment, hfb]
    · simp [create_appointment, hfb, h]

/-- C4 witness: booking with the unknown barber id 99 against `exDB`. -/
theorem create_missing_ref_witness :
    (findById exDB.barbers 99 = none ∨
     findById exDB.services ({ exPayload with barber_id := 99 } :
        CreatePayload).service_id = none) ∧
    create_appointment exDB { exPayload with barber_id := 99 } =
      (.notFound, exDB) :=
  ⟨Or.inl (by decide),
    create_missing_ref exDB { exPayload with barber_id := 99 }
      (Or.inl (by decide))⟩

/-- C6: in any reachable store, after cancelling a scheduled appointment a
new booking for the identical barber, date and time (with the barber and
service stored) succeeds: the now-cancelled appointment no longer triggers
the Conflict outcome. -/
theorem cancel_then_rebook (s : DB) (aid : Nat) (a : AppointmentRec)
    (p : CreatePayload) (hr : Reachable s)
    (hmem : (aid, a) ∈ s.appointments) (hsch : a.status = "scheduled")
    (hbid : a.barber_id = p.barber_id) (hdate : a.date = p.date)
    (htime : a.time = p.time)
    (hb : (findById s.barbers p.barber_id).isSome = true)
    (hsv : (findById s.services p.service_id).isSome = true) :
    (cancel_appointment s aid).1 = .ok ∧
    (create_appointment (cancel_appointment s aid).2 p).1 =
      .created (cancel_appointment s aid).2.nextId := by
  obtain ⟨h1, h2, h3, h4⟩ := reachable_inv hr
  cases hset : setCancelledFirst s.appointments aid with
  | none =>
    exact absurd hmem
      ((setCancelledFirst_none_iff aid s.appointments).mp hset a)
  | some l' =>
    have hok : cancel_appointment s aid = (.ok, { s with appointments := l' }) := by
      simp [cancel_appointment, hset]
    rw [hok]
    refine ⟨rfl, ?_⟩
    have htaken : slotTaken { s with appointments := l' }
        p.barber_id p.date p.time = false := by
      cases hb2 : slotTaken { s with appointments := l' } p.barber_id p.date p.time
      · rfl
      · exfalso
        rcases (slotTaken_iff _ _ _ _).mp hb2 with ⟨q, hq, e1, e2, e3, e4⟩
        have hq' : q ∈ l' := hq
        rcases setCancelledFirst_mem aid s.appointments l' hset q hq' with
          hin | hcanc
        · have hqaid : q.1 = aid :=
            h4 q hin (aid, a) hmem e4 hsch (e1.trans hbid.symm)
              (e2.trans hdate.symm) (e3.trans htime.symm)
          have hqc := setCancelledFirst_key_cancelled aid s.appointments l'
            h2 hset q hq' hqaid
          exact absurd (e4.symm.trans hqc) (by decide)
        · exact absurd (e4.symm.trans hcanc.2) (by decide)
    have hbn : (findById s.barbers p.barber_id).isNone = false := by
      cases hfb : findById s.barbers p.barber_id
      · rw [hfb] at hb
        cases hb
      · rfl
    have hsn : (findById s.services p.service_id).isNone = false := by
      cases hfs : findById s.services p.service_id
      · rw [hfs] at hsv
        cases hsv
      · rfl
    simp [create_appointment, create_document, hbn, hsn, htaken]

/-- C6 witness: book 09:00 in a seeded store, cancel it (id 2), rebook. -/
theorem cancel_then_rebook_witness :
    Reachable exDB3 ∧ (2, exBookedRec) ∈ exDB3.appointments ∧
    exBookedRec.status = "scheduled" ∧
    exBookedRec.barber_id = exPayload.barber_id ∧
    exBookedRec.date = exPayload.date ∧
    exBookedRec.time = exPayload.time ∧
    (findById exDB3.barbers exPayload.barber_id).isSome = true ∧
    (findById exDB3.services exPayload.service_id).isSome = true ∧
    ((cancel_appointment exDB3 2).1 = .ok ∧
     (create_appointment (cancel_appointment exDB3 2).2 exPayload).1 =
       .created (cancel_appointment exDB3 2).2.nextId) :=
  ⟨Reachable.book exPayload
      (Reachable.seedService exService (Reachable.seedBarber exBarber
        Reachable.init)),
    by decide, by decide, by decide, by decide, by decide, by decide,
    by decide,
    cancel_then_rebook exDB3 2 exBookedRec exPayload
      (Reachable.book exPayload
        (Reachable.seedService exService (Reachable.seedBarber exBarber
          Reachable.init)))
      (by decide) (by decide) (by decide) (by decide) (by decide) (by decide)
      (by decide)⟩

/-- C7: cancellation reports NotFound exactly when no stored appointment has
the requested id; when one exists it reports success and a record with that
id is stored with status "cancelled". -/
theorem cancel_spec (s : DB) (aid : Nat) :
    ((cancel_appointment s aid).1 = .notFound ↔
      ∀ a, (aid, a) ∉ s.appointments) ∧
    ((∃ a, (aid, a) ∈ s.appointments) →
      (cancel_appointment s aid).1 = .ok ∧
      ∃ a, (aid, a) ∈ (cancel_appointment s aid).2.appointments ∧
        a.status = "cancelled") := by
  cases hset : setCancelledFirst s.appointments aid with
  | none =>
    have hnone := (setCancelledFirst_none_iff aid s.appointments).mp hset
    constructor
    · constructor
      · intro _
        exact hnone
      · intro _
        simp [cancel_appointment, hset]
    · rintro ⟨a, ha⟩
      exact absurd ha (hnone a)
  | some l' =>
    constructor
    · constructor
      · intro hcon
        simp [cancel_appointment, hset] at hcon
      · intro hall
        exfalso
        have hn : setCancelledFirst s.appointments aid = none :=
          (setCancelledFirst_none_iff aid s.appointments).mpr hall
        rw [hset] at hn
        cases hn
    · intro _
      refine ⟨by simp [cancel_appointment, hset], ?_⟩
      rcases setCancelledFirst_exists_cancelled aid s.appointments l' hset
        with ⟨a, ha1, ha2⟩
      refine ⟨a, ?_, ha2⟩
      simp only [cancel_appointment, hset]
      exact ha1

/-- C7 witness: instantiated at `exDB` and its appointment id 2. -/
theorem cancel_spec_witness :
    ((cancel_appointment exDB 2).1 = .notFound ↔
      ∀ a, (2, a) ∉ exDB.appointments) ∧
    ((∃ a, (2, a) ∈ exDB.appointments) →
      (cancel_appointment exDB 2).1 = .ok ∧
      ∃ a, (2, a) ∈ (cancel_appointment exDB 2).2.appointments ∧
        a.status = "cancelled") :=
  cancel_spec exDB 2

/-- C8: in every reachable store every appointment's status is "scheduled"
or "cancelled"; any appointment a booking adds carries status "scheduled";
and neither booking nor cancellation ever moves an id whose record is
"cancelled" to any other status — the transition is one-way. -/
theorem status_state_machine (s : DB) (hr : Reachable s) :
    (∀ q ∈ s.appointments, q.2.status = "scheduled" ∨
      q.2.status = "cancelled") ∧
    (∀ p : CreatePayload, ∀ q ∈ (create_appointment s p).2.appointments,
        q ∉ s.appointments → q.2.status = "scheduled") ∧
    (∀ (p : CreatePayload) (i : Nat) (a : AppointmentRec),
        (i, a) ∈ s.appointments → a.status = "cancelled" →
        ∀ a', (i, a') ∈ (create_appointment s p).2.appointments →
          a'.status = "cancelled") ∧
    (∀ (aid i : Nat) (a : AppointmentRec),
        (i, a) ∈ s.appointments → a.status = "cancelled" →
        ∀ a', (i, a') ∈ (cancel_appointment s aid).2.appointments →
          a'.status = "cancelled") := by
  obtain ⟨h1, h2, h3, h4⟩ := reachable_inv hr
  refine ⟨h3, ?_, ?_, ?_⟩
  · intro p q hq hnot
    simp only [create_appointment, create_document] at hq
    split at hq
    · exact absurd hq hnot
    · split at hq
      · exact absurd hq hnot
      · split at hq
        · exact absurd hq hnot
        · rcases List.mem_append.mp hq with hin | hnew
          · exact absurd hin hnot
          · rw [List.mem_singleton.mp hnew]
  · intro p i a hmem hc a' hmem'
    simp only [create_appointment, create_document] at hmem'
    split at hmem'
    · rw [keys_nodup_inj s.appointments h2 hmem' hmem]
      exact hc
    · split at hmem'
      · rw [keys_nodup_inj s.appointments h2 hmem' hmem]
        exact hc
      · split at hmem'
        · rw [keys_nodup_inj s.appointments h2 hmem' hmem]
          exact hc
        · rcases List.mem_append.mp hmem' with hin | hnew
          · rw [keys_nodup_inj s.appointments h2 hin hmem]
            exact hc
          · exfalso
            have hlt : i < s.nextId := h1 (i, a) hmem
            have heq := List.mem_singleton.mp hnew
            rw [Prod.mk.injEq] at heq
            omega
  · intro aid i a hmem hc a' hmem'
    cases hset : setCancelledFirst s.appointments aid with
    | none =>
      simp only [cancel_appointment, hset] at hmem'
      rw [keys_nodup_inj s.appointments h2 hmem' hmem]
      exact hc
    | some l' =>
      simp only [cancel_appointment, hset] at hmem'
      have hmem2 : (i, a') ∈ l' := hmem'
      rcases setCancelledFirst_mem aid s.appointments l' hset _ hmem2 with
        hin | hcanc
      · rw [keys_nodup_inj s.appointments h2 hin hmem]
        exact hc
      · exact hcanc.2

/-- C8 witness: instantiated at the reachable initial store. -/
theorem status_state_machine_witness :
    Reachable initDB ∧
    ((∀ q ∈ initDB.appointments, q.2.status = "scheduled" ∨
        q.2.status = "cancelled") ∧
     (∀ p : CreatePayload, ∀ q ∈ (create_appointment initDB p).2.appointments,
        q ∉ initDB.appointments → q.2.status = "scheduled") ∧
     (∀ (p : CreatePayload) (i : Nat) (a : AppointmentRec),
        (i, a) ∈ initDB.appointments → a.status = "cancelled" →
        ∀ a', (i, a') ∈ (create_appointment initDB p).2.appointments →
          a'.status = "cancelled") ∧
     (∀ (aid i : Nat) (a : AppointmentRec),
        (i, a) ∈ initDB.appointments → a.status = "cancelled" →
        ∀ a', (i, a') ∈ (cancel_appointment initDB aid).2.appointments →
          a'.status = "cancelled")) :=
  ⟨Reachable.init, status_state_machine initDB Reachable.init⟩

/-- C10: cancelling an existing, already-cancelled appointment (ids unique,
as Mongo guarantees for _id) succeeds, leaves the appointment collection
unchanged, and every record under that id still has status "cancelled":
cancellation is idempotent on existing appointments. -/
theorem cancel_cancelled_idempotent (s : DB) (aid : Nat) (a : AppointmentRec)
    (hnd : (s.appointments.map Prod.fst).Nodup)
    (hmem : (aid, a) ∈ s.appointments) (hc : a.status = "cancelled") :
    (cancel_appointment s aid).1 = .ok ∧
    (cancel_appointment s aid).2.appointments = s.appointments ∧
    (∀ a', (aid, a') ∈ (cancel_appointment s aid).2.appointments →
      a'.status = "cancelled") := by
  have hset := setCancelledFirst_already aid a s.appointments hnd hmem hc
  refine ⟨by simp [cancel_appointment, hset],
    by simp [cancel_appointment, hset], ?_⟩
  intro a' hmem'
  simp only [cancel_appointment, hset] at hmem'
  have hmem2 : (aid, a') ∈ s.appointments := hmem'
  rw [keys_nodup_inj s.appointments hnd hmem2 hmem]
  exact hc

/-- C10 witness: re-cancelling the cancelled appointment 2 of `exDBc`. -/
theorem cancel_cancelled_idempotent_witness :
    (exDBc.appointments.map Prod.fst).Nodup ∧
    (2, exApptCancelled) ∈ exDBc.appointments ∧
    exApptCancelled.status = "cancelled" ∧
    ((cancel_appointment exDBc 2).1 = .ok ∧
     (cancel_appointment exDBc 2).2.appointments = exDBc.appointments ∧
     (∀ a', (2, a') ∈ (cancel_appointment exDBc 2).2.appointments →
        a'.status = "cancelled")) :=
  ⟨by decide, by decide, by decide,
    cancel_cancelled_idempotent exDBc 2 exApptCancelled (by decide)
      (by decide) (by decide)⟩

end Barbershop
